import Mathlib

/-!
Shallow embedding of the bevy_sqlx command/task/reconciliation pipeline
(files src/event.rs and src/tasks.rs of the repository).

Type parameters: `C` is the component (record) type, `K` the primary-key
column type (trait `PrimaryKey` of component.rs supplies `primary_key : C → K`),
`E` models the opaque driver error type `sqlx::Error`.  The host ECS world is
modelled by `World`: a list of (entity handle, record) pairs plus a fresh
entity counter; Bevy `Commands` are deferred, so a pass buffers `EntityCmd`
values and applies them only after the retain loop, exactly as
`SqlxTasks::handle_tasks` does via `params.apply(world)`.

Asynchrony is modelled by giving each spawned task an absolute completion
tick `readyAt`; `poll_once t` returns the result exactly when `readyAt ≤ t`,
mirroring the non-blocking `block_on(future::poll_once(task))`.
-/

namespace BevySqlx

/-- The type of SqlxEvent IDs (`pub type SqlxEventId = u32`); modelled as Nat,
with the u32 wraparound made explicit in `next_event_id`. -/
abbrev SqlxEventId := Nat

/-- The status events of event.rs: `SqlxEventStatus` with variants
Start, Return, Spawn, Update, Error. -/
inductive SqlxEventStatus (K C E : Type) where
  | Start (id : SqlxEventId)
  | Return (id : SqlxEventId) (components : List C)
  | Spawn (id : SqlxEventId) (pk : K)
  | Update (id : SqlxEventId) (pk : K)
  | Error (id : SqlxEventId) (err : E)
deriving DecidableEq

/-- The accessor `SqlxEventStatus::id` of event.rs. -/
def SqlxEventStatus.id {K C E : Type} : SqlxEventStatus K C E → SqlxEventId
  | .Start i => i
  | .Return i _ => i
  | .Spawn i _ => i
  | .Update i _ => i
  | .Error i _ => i

deriving instance DecidableEq for Except

/-- The behaviour of the future produced by the stored `func` of a
`SqlxEvent`: how many ticks after spawning it completes, and with what
`Result<Vec<C>, Error>`. -/
structure SqlxFuture (C E : Type) where
  delay : Nat
  result : Except E (List C)
deriving DecidableEq

/-- The event type of event.rs: `SqlxEvent { func, id, will_sync }` (the two
`PhantomData` fields carry no data). -/
structure SqlxEvent (C E : Type) where
  func : SqlxFuture C E
  id : SqlxEventId
  will_sync : Bool
deriving DecidableEq

/-- The derived `Clone` of `SqlxEvent`: every field is cloned
(`Arc::clone` shares the same function, so the cloned func has the same
behaviour). -/
def SqlxEvent.clone {C E : Type} (e : SqlxEvent C E) : SqlxEvent C E :=
  ⟨e.func, e.id, e.will_sync⟩

/-- A pollable task handle (`Task<Result<Vec<C>, Error>>`): the tick at which
the worker pool has the result ready, and that result. -/
structure SqlxTask (C E : Type) where
  readyAt : Nat
  result : Except E (List C)
deriving DecidableEq

/-- The non-blocking poll `block_on(future::poll_once(task))`: `none` while
the task is still pending at tick `t`, otherwise the finished result. -/
def poll_once {C E : Type} (t : Nat) (task : SqlxTask C E) :
    Option (Except E (List C)) :=
  if task.readyAt ≤ t then some task.result else none

/-- One element of `SqlxTasks.components`:
`(SqlxEventId, bool, Task<Result<Vec<C>, Error>>)`. -/
structure TaskEntry (C E : Type) where
  id : SqlxEventId
  sync : Bool
  task : SqlxTask C E
deriving DecidableEq

/-- The host ECS world as seen by this plugin: materialized entities holding a
component of type `C`, in query iteration order, plus the fresh entity
counter used by `commands.spawn`. -/
structure World (C : Type) where
  nextId : Nat
  entities : List (Nat × C)
deriving DecidableEq

/-- A deferred Bevy command issued during a pass:
`commands.entity(entity).insert(component)` or `commands.spawn(component)`. -/
inductive EntityCmd (C : Type) where
  | insert (entity : Nat) (component : C)
  | spawn (component : C)
deriving DecidableEq

/-- Applying one deferred command to the world (what `params.apply(world)`
does for each buffered command, in issue order): `insert` overwrites the
component of the targeted entity, `spawn` appends a fresh entity holding the
component. -/
def applyCmd {C : Type} (w : World C) : EntityCmd C → World C
  | .insert ent c =>
      ⟨w.nextId, w.entities.map (fun p => if p.1 = ent then (ent, c) else p)⟩
  | .spawn c => ⟨w.nextId + 1, w.entities ++ [(w.nextId, c)]⟩

/-- The inner lookup loop of `handle_tasks` (tasks.rs lines 76-87): scan the
query for the first spawned component whose primary key equals that of the
task component, breaking at the first match. -/
def findExisting {K C : Type} [DecidableEq K] (primary_key : C → K)
    (q : List (Nat × C)) (r : C) : Option Nat :=
  (q.find? (fun p => decide (primary_key p.2 = primary_key r))).map (fun p => p.1)

/-- Processing of one task component under `will_sync = true`
(tasks.rs lines 75-107): found → send Update and insert over the existing
entity; not found → send Spawn and spawn a new entity. -/
def reconcileRecord {K C E : Type} [DecidableEq K] (primary_key : C → K)
    (q : List (Nat × C)) (id : SqlxEventId) (r : C) :
    SqlxEventStatus K C E × EntityCmd C :=
  match findExisting primary_key q r with
  | some ent => (.Update id (primary_key r), .insert ent r)
  | none => (.Spawn id (primary_key r), .spawn r)

/-- The entity command issued for one task component, ignoring the status. -/
def cmdOfRec {K C : Type} [DecidableEq K] (primary_key : C → K)
    (q : List (Nat × C)) (r : C) : EntityCmd C :=
  match findExisting primary_key q r with
  | some ent => .insert ent r
  | none => .spawn r

/-- The body of the `retain_mut` closure of `handle_tasks` for one entry:
statuses sent, entity commands queued, and whether the entry is retained
(retained exactly when the single poll returns `None`). -/
def processEntry {K C E : Type} [DecidableEq K] (primary_key : C → K)
    (q : List (Nat × C)) (t : Nat) (e : TaskEntry C E) :
    List (SqlxEventStatus K C E) × List (EntityCmd C) × Bool :=
  match poll_once t e.task with
  | none => ([], [], true)
  | some (.ok recs) =>
      if e.sync then
        ((recs.map (reconcileRecord (E := E) primary_key q e.id)).map Prod.fst,
         (recs.map (reconcileRecord (E := E) primary_key q e.id)).map Prod.snd,
         false)
      else ([.Return e.id recs], [], false)
  | some (.error err) => ([.Error e.id err], [], false)

/-- Accumulated output of the retain loop over the outstanding entries:
statuses in send order, deferred entity commands in issue order, retained
entries in order, and the number of polls performed. -/
structure PassOut (K C E : Type) where
  statuses : List (SqlxEventStatus K C E)
  cmds : List (EntityCmd C)
  kept : List (TaskEntry C E)
  polls : Nat
deriving DecidableEq

/-- The retain loop of `handle_tasks` over `tasks.components`, with the query
`q` frozen for the whole pass (Bevy commands are deferred, so the query never
reflects this pass's own spawns or inserts). Each entry is polled exactly
once. -/
def passEntries {K C E : Type} [DecidableEq K] (primary_key : C → K)
    (q : List (Nat × C)) (t : Nat) :
    List (TaskEntry C E) → PassOut K C E
  | [] => ⟨[], [], [], 0⟩
  | e :: rest =>
      let p := processEntry primary_key q t e
      let o := passEntries primary_key q t rest
      ⟨p.1 ++ o.statuses, p.2.1 ++ o.cmds,
       (if p.2.2 then [e] else []) ++ o.kept, 1 + o.polls⟩

/-- The exclusive system `SqlxTasks::handle_tasks` at tick `t`: run the
retain loop against the frozen query (the world entities at entry), then
apply the deferred commands (`params.apply(world)`).  Returns the statuses
sent, the retained outstanding entries, and the updated world. -/
def handle_tasks {K C E : Type} [DecidableEq K] (primary_key : C → K)
    (t : Nat) (w : World C) (tasks : List (TaskEntry C E)) :
    List (SqlxEventStatus K C E) × List (TaskEntry C E) × World C :=
  let o := passEntries primary_key w.entities t tasks
  (o.statuses, o.kept, o.cmds.foldl applyCmd w)

/-- The system `SqlxEvent::handle_events` at tick `t`: for each submitted
event in order, send `Start(event.id())`, spawn the task from the future the
stored func produces (ready `delay` ticks from now), and push
`(event.id(), event.will_sync(), task)` onto the outstanding components. -/
def handle_events {K C E : Type} (t : Nat) (events : List (SqlxEvent C E))
    (tasks : List (TaskEntry C E)) :
    List (SqlxEventStatus K C E) × List (TaskEntry C E) :=
  events.foldl
    (fun acc e =>
      (acc.1 ++ [.Start e.id],
       acc.2 ++ [⟨e.id, e.will_sync, ⟨t + e.func.delay, e.func.result⟩⟩]))
    ([], tasks)

/-- The entry `handle_events` pushes for one submitted event. -/
def spawnEntry {C E : Type} (t : Nat) (e : SqlxEvent C E) : TaskEntry C E :=
  ⟨e.id, e.will_sync, ⟨t + e.func.delay, e.func.result⟩⟩

/-- Initial value of the process-wide counter:
`static EVENT_ID_GENERATOR: AtomicU32 = AtomicU32::new(1)`. -/
def EVENT_ID_GENERATOR_INIT : Nat := 1

/-- The function `next_event_id`: one `fetch_add(1, Ordering::Relaxed)` on the
generator.  The state is the current u32 value of the atomic (an invariant
kept below 2 ^ 32); the returned id is the old value and the new state wraps
modulo 2 ^ 32, as u32 addition does. -/
def next_event_id (gen : Nat) : SqlxEventId × Nat :=
  (gen, (gen + 1) % 2 ^ 32)

/-- The constructor `SqlxEvent::call_private(sync, func)`: draws one id from
`next_event_id` and stores the func and the sync flag.  The generator state is
threaded explicitly. -/
def call_private {C E : Type} (sync : Bool) (func : SqlxFuture C E)
    (gen : Nat) : SqlxEvent C E × Nat :=
  (⟨func, (next_event_id gen).1, sync⟩, (next_event_id gen).2)

/-- The constructor `SqlxEvent::call`. -/
def call {C E : Type} (func : SqlxFuture C E) (gen : Nat) :
    SqlxEvent C E × Nat :=
  call_private false func gen

/-- The constructor `SqlxEvent::call_sync`. -/
def call_sync {C E : Type} (func : SqlxFuture C E) (gen : Nat) :
    SqlxEvent C E × Nat :=
  call_private true func gen

/-- The constructor `SqlxEvent::query_private(sync, sql)`: wraps the SQL
string into a pool-bound closure and defers to `call_private`.  The SQL
execution itself happens inside the external driver, so the wrapped closure
is represented here directly by the future behaviour it produces. -/
def query_private {C E : Type} (sync : Bool) (func : SqlxFuture C E)
    (gen : Nat) : SqlxEvent C E × Nat :=
  call_private sync func gen

/-- The constructor `SqlxEvent::query`. -/
def query {C E : Type} (func : SqlxFuture C E) (gen : Nat) :
    SqlxEvent C E × Nat :=
  query_private false func gen

/-- The constructor `SqlxEvent::query_sync`. -/
def query_sync {C E : Type} (func : SqlxFuture C E) (gen : Nat) :
    SqlxEvent C E × Nat :=
  query_private true func gen

/-- The generator value before the k-th construction (counting from 0),
starting from the static initializer. -/
def eventIdGen : Nat → Nat
  | 0 => EVENT_ID_GENERATOR_INIT
  | k + 1 => (next_event_id (eventIdGen k)).2

/-- The id handed to the k-th constructed event. -/
def eventIdAt (k : Nat) : SqlxEventId := (next_event_id (eventIdGen k)).1

/-- Modelled from the spec: the per-tick schedule.  The plugin wiring that
registers the two systems is not part of the covered sources, so the tick
composition follows the spec (section 2): command intake
(`handle_events`) runs, then the reconciler (`handle_tasks`) polls the
outstanding set, once per tick. -/
def tick {K C E : Type} [DecidableEq K] (primary_key : C → K) (t : Nat)
    (subs : List (SqlxEvent C E)) (s : World C × List (TaskEntry C E)) :
    List (SqlxEventStatus K C E) × (World C × List (TaskEntry C E)) :=
  ((handle_events (K := K) t subs s.2).1
     ++ (handle_tasks primary_key t s.1
          (handle_events (K := K) t subs s.2).2).1,
   ((handle_tasks primary_key t s.1
       (handle_events (K := K) t subs s.2).2).2.2,
    (handle_tasks primary_key t s.1
       (handle_events (K := K) t subs s.2).2).2.1))

/-- Running successive ticks starting at tick `t`, submitting the n-th
element of `subs` during the n-th tick; returns the whole status trace in
emission order and the final state. -/
def runTicks {K C E : Type} [DecidableEq K] (primary_key : C → K) :
    Nat → List (List (SqlxEvent C E)) → World C × List (TaskEntry C E) →
    List (SqlxEventStatus K C E) × (World C × List (TaskEntry C E))
  | _, [], s => ([], s)
  | t, evs :: rest, s =>
      ((tick primary_key t evs s).1
         ++ (runTicks primary_key (t + 1) rest (tick primary_key t evs s).2).1,
       (runTicks primary_key (t + 1) rest (tick primary_key t evs s).2).2)

/-- Whether a status is `Start(i)`. -/
def isStartFor {K C E : Type} (i : SqlxEventId) :
    SqlxEventStatus K C E → Bool
  | .Start j => decide (j = i)
  | _ => false

/-- Whether a status is a terminal notification (Return, Spawn, Update or
Error) bearing id `i`. -/
def isTerminalFor {K C E : Type} (i : SqlxEventId) :
    SqlxEventStatus K C E → Bool
  | .Start _ => false
  | .Return j _ => decide (j = i)
  | .Spawn j _ => decide (j = i)
  | .Update j _ => decide (j = i)
  | .Error j _ => decide (j = i)

/-- Scans a status trace with a flag recording whether `Start(i)` has been
seen; holds when every terminal notification for `i` is strictly preceded by
`Start(i)` (or the flag was set at entry). -/
def startBeforeTerminal {K C E : Type} (i : SqlxEventId) :
    Bool → List (SqlxEventStatus K C E) → Bool
  | _, [] => true
  | seen, s :: rest =>
      (!(isTerminalFor i s) || seen)
        && startBeforeTerminal i (seen || isStartFor i s) rest

/-- The number of materialized entities whose record has primary key `k`. -/
def countKey {K C : Type} [DecidableEq K] (primary_key : C → K) (k : K)
    (l : List (Nat × C)) : Nat :=
  l.countP (fun p => decide (primary_key p.2 = k))

/-- Well-formedness of the modelled world: every entity handle is below the
fresh counter and handles are pairwise distinct (as Bevy guarantees). -/
def WF {C : Type} (w : World C) : Prop :=
  (∀ p ∈ w.entities, p.1 < w.nextId) ∧ (w.entities.map Prod.fst).Nodup

/-- The concatenation, in processing order, of the result vectors of all
entries that complete at tick `t` with `Ok` under the sync flag: exactly the
records the pass reconciles into entities. -/
def completedSyncRecords {C E : Type} (t : Nat) :
    List (TaskEntry C E) → List C
  | [] => []
  | e :: rest =>
      (match poll_once t e.task with
       | some (.ok recs) => if e.sync then recs else []
       | _ => []) ++ completedSyncRecords t rest

/-- The number of terminal notifications one completed entry emits: one per
record when synchronizing with Ok, one Return otherwise, one Error on
failure. -/
def terminalCountOf {C E : Type} (sync : Bool) : Except E (List C) → Nat
  | .ok recs => if sync then recs.length else 1
  | .error _ => 1

theorem handle_events_foldl {K C E : Type} (t : Nat)
    (events : List (SqlxEvent C E)) :
    ∀ (st0 : List (SqlxEventStatus K C E)) (ts0 : List (TaskEntry C E)),
      events.foldl
        (fun acc e =>
          (acc.1 ++ [.Start e.id],
           acc.2 ++ [⟨e.id, e.will_sync, ⟨t + e.func.delay, e.func.result⟩⟩]))
        (st0, ts0)
      = (st0 ++ events.map (fun e => SqlxEventStatus.Start e.id),
         ts0 ++ events.map (spawnEntry t)) := by
  induction events with
  | nil => intro st0 ts0; simp
  | cons e rest ih =>
      intro st0 ts0
      simp only [List.foldl_cons, List.map_cons]
      rw [ih]
      simp [spawnEntry]

/-- Closed form of `handle_events`: Start statuses in submission order, and
entries appended in that same order. -/
theorem handle_events_eq {K C E : Type} (t : Nat)
    (events : List (SqlxEvent C E)) (tasks : List (TaskEntry C E)) :
    handle_events (K := K) t events tasks
      = (events.map (fun e => SqlxEventStatus.Start e.id),
         tasks ++ events.map (spawnEntry t)) := by
  unfold handle_events
  rw [handle_events_foldl]
  simp

theorem passEntries_append {K C E : Type} [DecidableEq K] (primary_key : C → K)
    (q : List (Nat × C)) (t : Nat) (xs ys : List (TaskEntry C E)) :
    passEntries primary_key q t (xs ++ ys)
      = ⟨(passEntries primary_key q t xs).statuses
           ++ (passEntries (K := K) primary_key q t ys).statuses,
         (passEntries primary_key q t xs).cmds
           ++ (passEntries (K := K) primary_key q t ys).cmds,
         (passEntries (K := K) primary_key q t xs).kept
           ++ (passEntries (K := K) primary_key q t ys).kept,
         (passEntries (K := K) primary_key q t xs).polls
           + (passEntries (K := K) primary_key q t ys).polls⟩ := by
  induction xs with
  | nil => simp [passEntries]
  | cons e rest ih =>
      simp only [List.cons_append, passEntries, List.append_eq]
      rw [ih]
      simp [List.append_assoc, Nat.add_assoc]

theorem processEntry_pending {K C E : Type} [DecidableEq K]
    (primary_key : C → K) (q : List (Nat × C)) (t : Nat) (e : TaskEntry C E)
    (h : poll_once t e.task = none) :
    processEntry (K := K) primary_key q t e = ([], [], true) := by
  simp [processEntry, h]

theorem passEntries_pending {K C E : Type} [DecidableEq K]
    (primary_key : C → K) (q : List (Nat × C)) (t : Nat)
    (l : List (TaskEntry C E)) (h : ∀ x ∈ l, poll_once t x.task = none) :
    passEntries (K := K) primary_key q t l = ⟨[], [], l, l.length⟩ := by
  induction l with
  | nil => simp [passEntries]
  | cons e rest ih =>
      have he : poll_once t e.task = none := h e (List.mem_cons_self e rest)
      have hr : ∀ x ∈ rest, poll_once t x.task = none := by
        intro x hx; exact h x (List.mem_cons_of_mem e hx)
      simp [passEntries, processEntry_pending primary_key q t e he, ih hr,
        Nat.add_comm]

theorem passEntries_kept_filter {K C E : Type} [DecidableEq K]
    (primary_key : C → K) (q : List (Nat × C)) (t : Nat)
    (l : List (TaskEntry C E)) :
    (passEntries (K := K) primary_key q t l).kept
      = l.filter (fun e => (poll_once t e.task).isNone) := by
  induction l with
  | nil => simp [passEntries]
  | cons e rest ih =>
      by_cases hp : poll_once t e.task = none
      · simp [passEntries, processEntry_pending primary_key q t e hp, ih,
          List.filter_cons, hp]
      · match hres : poll_once t e.task with
        | none => exact absurd hres hp
        | some (.ok recs) =>
            by_cases hs : e.sync
            · simp [passEntries, processEntry, hres, hs, ih,
                List.filter_cons, Option.isNone]
            · simp [passEntries, processEntry, hres, hs, ih,
                List.filter_cons, Option.isNone]
        | some (.error err) =>
            simp [passEntries, processEntry, hres, ih, List.filter_cons,
              Option.isNone]

theorem passEntries_polls {K C E : Type} [DecidableEq K] (primary_key : C → K)
    (q : List (Nat × C)) (t : Nat) (l : List (TaskEntry C E)) :
    (passEntries (K := K) primary_key q t l).polls = l.length := by
  induction l with
  | nil => simp [passEntries]
  | cons e rest ih => simp [passEntries, ih, Nat.add_comm]

theorem reconcileRecord_fst {K C E : Type} [DecidableEq K]
    (primary_key : C → K) (q : List (Nat × C)) (id : SqlxEventId) (r : C) :
    (reconcileRecord (E := E) primary_key q id r).1
      = match findExisting primary_key q r with
        | some _ => SqlxEventStatus.Update id (primary_key r)
        | none => SqlxEventStatus.Spawn id (primary_key r) := by
  cases h : findExisting primary_key q r <;> simp [reconcileRecord, h]

theorem reconcileRecord_snd {K C E : Type} [DecidableEq K]
    (primary_key : C → K) (q : List (Nat × C)) (id : SqlxEventId) (r : C) :
    (reconcileRecord (E := E) primary_key q id r).2
      = cmdOfRec primary_key q r := by
  cases h : findExisting primary_key q r <;> simp [reconcileRecord, cmdOfRec, h]

theorem findExisting_some {K C : Type} [DecidableEq K] (primary_key : C → K)
    (q : List (Nat × C)) (r : C) (ent : Nat)
    (h : findExisting primary_key q r = some ent) :
    ∃ c, (ent, c) ∈ q ∧ primary_key c = primary_key r := by
  unfold findExisting at h
  match hf : q.find? (fun p => decide (primary_key p.2 = primary_key r)) with
  | none => rw [hf] at h; cases h
  | some pr =>
      rw [hf] at h
      have h2 : pr.1 = ent := by
        simpa using h
      have hmem := List.mem_of_find?_eq_some hf
      have hkey := List.find?_some hf
      simp only [decide_eq_true_eq] at hkey
      refine ⟨pr.2, ?_, hkey⟩
      rw [← h2]
      exact hmem

theorem findExisting_none {K C : Type} [DecidableEq K] (primary_key : C → K)
    (q : List (Nat × C)) (r : C)
    (h : findExisting primary_key q r = none) :
    ∀ p ∈ q, primary_key p.2 ≠ primary_key r := by
  unfold findExisting at h
  intro p hp
  have hf : q.find? (fun p => decide (primary_key p.2 = primary_key r)) = none := by
    cases hx : q.find? (fun p => decide (primary_key p.2 = primary_key r))
    · rfl
    · rw [hx] at h; cases h
  have := List.find?_eq_none.mp hf p hp
  simpa using this

/-- C8: within one intake tick, `handle_events` emits the Start notifications
in submission order and appends the (id, synchronize, handle) entries to the
outstanding set in that same order, each entry carrying the id and sync flag
of its originating command. -/
theorem handle_events_start_order {K C E : Type} (t : Nat)
    (events : List (SqlxEvent C E)) (tasks : List (TaskEntry C E)) :
    (handle_events (K := K) t events tasks).1
        = events.map (fun e => SqlxEventStatus.Start e.id)
      ∧ (handle_events (K := K) t events tasks).2
        = tasks ++ events.map (fun e =>
            ⟨e.id, e.will_sync, ⟨t + e.func.delay, e.func.result⟩⟩) := by
  rw [handle_events_eq]
  exact ⟨rfl, rfl⟩

/-- C10: the derived clone of a constructed event preserves both the id and
the synchronize flag, so submitting an event together with its clone is
observed under one single id (both pushed outstanding entries carry it)
rather than drawing a fresh id per submission. -/
theorem clone_preserves_id_sync {K C E : Type} (e : SqlxEvent C E) (t : Nat)
    (tasks : List (TaskEntry C E)) :
    e.clone.id = e.id ∧ e.clone.will_sync = e.will_sync
      ∧ (handle_events (K := K) t [e, e.clone] tasks).1
          = [SqlxEventStatus.Start e.id, SqlxEventStatus.Start e.id]
      ∧ ∀ x ∈ (handle_events (K := K) t [e, e.clone] tasks).2.drop tasks.length,
          x.id = e.id := by
  refine ⟨rfl, rfl, ?_, ?_⟩
  · rw [handle_events_eq]
    simp [SqlxEvent.clone]
  · rw [handle_events_eq, List.drop_left]
    intro x hx
    simp only [List.map_cons, List.map_nil, List.mem_cons, List.not_mem_nil,
      or_false] at hx
    rcases hx with h | h <;> subst h <;> rfl

/-- C5: a non-synchronizing command completing with Ok emits exactly one
Return notification carrying the full result vector, and (being the only
completed entry of the pass) leaves the materialized entity set entirely
unchanged; the entry is removed from the outstanding set. -/
theorem handle_tasks_return_no_mutation {K C E : Type} [DecidableEq K]
    (primary_key : C → K) (t : Nat) (w : World C) (e : TaskEntry C E)
    (recs : List C) (p1 p2 : List (TaskEntry C E))
    (hsync : e.sync = false)
    (hpoll : poll_once t e.task = some (Except.ok recs))
    (hpend : ∀ x ∈ p1 ++ p2, poll_once t x.task = none) :
    (handle_tasks primary_key t w (p1 ++ e :: p2)).1
        = [SqlxEventStatus.Return e.id recs]
      ∧ (handle_tasks primary_key t w (p1 ++ e :: p2)).2.2 = w
      ∧ (handle_tasks primary_key t w (p1 ++ e :: p2)).2.1 = p1 ++ p2 := by
  have hp1 : ∀ x ∈ p1, poll_once t x.task = none := fun x hx =>
    hpend x (List.mem_append_left _ hx)
  have hp2 : ∀ x ∈ p2, poll_once t x.task = none := fun x hx =>
    hpend x (List.mem_append_right _ hx)
  have hproc : processEntry (K := K) primary_key w.entities t e
      = ([SqlxEventStatus.Return e.id recs], [], false) := by
    simp [processEntry, hpoll, hsync]
  unfold handle_tasks
  rw [passEntries_append]
  simp [passEntries, hproc, passEntries_pending primary_key w.entities t p1 hp1,
    passEntries_pending primary_key w.entities t p2 hp2]

/-- Witness for C5 at a concrete input: one pending entry plus one completed
non-synchronizing entry. -/
theorem handle_tasks_return_no_mutation_witness :
    ((⟨1, true, ⟨5, Except.ok []⟩⟩ : TaskEntry Nat Unit).sync = true)
      ∧ (handle_tasks (fun c : Nat => c) 0 ⟨0, []⟩
            ([⟨1, true, ⟨5, Except.ok []⟩⟩]
              ++ (⟨7, false, ⟨0, Except.ok [3]⟩⟩ : TaskEntry Nat Unit) :: [])).1
          = [SqlxEventStatus.Return 7 [3]]
      ∧ (handle_tasks (fun c : Nat => c) 0 ⟨0, []⟩
            ([⟨1, true, ⟨5, Except.ok []⟩⟩]
              ++ (⟨7, false, ⟨0, Except.ok [3]⟩⟩ : TaskEntry Nat Unit) :: [])).2.2
          = ⟨0, []⟩
      ∧ (handle_tasks (fun c : Nat => c) 0 ⟨0, []⟩
            ([⟨1, true, ⟨5, Except.ok []⟩⟩]
              ++ (⟨7, false, ⟨0, Except.ok [3]⟩⟩ : TaskEntry Nat Unit) :: [])).2.1
          = [⟨1, true, ⟨5, Except.ok []⟩⟩] ++ [] := by
  refine ⟨by decide, ?_⟩
  exact handle_tasks_return_no_mutation (fun c : Nat => c) 0 ⟨0, []⟩
    ⟨7, false, ⟨0, Except.ok [3]⟩⟩ [3] [⟨1, true, ⟨5, Except.ok []⟩⟩] []
    (by decide) (by decide) (by decide)

/-- C7: every reconciliation pass polls each outstanding entry exactly once;
pending entries are retained verbatim (same id, flag and handle) and
contribute no notification; completed entries are removed in that same tick;
a pass over pending-only entries emits nothing and leaves both the
outstanding set and the entity set unchanged. -/
theorem handle_tasks_poll_retain_remove {K C E : Type} [DecidableEq K]
    (primary_key : C → K) (t : Nat) (w : World C)
    (tasks : List (TaskEntry C E)) :
    (passEntries (K := K) primary_key w.entities t tasks).polls = tasks.length
      ∧ (handle_tasks primary_key t w tasks).2.1
          = tasks.filter (fun e => (poll_once t e.task).isNone)
      ∧ (∀ e : TaskEntry C E, poll_once t e.task = none →
          processEntry (K := K) primary_key w.entities t e = ([], [], true))
      ∧ ((∀ x ∈ tasks, poll_once t x.task = none) →
          (handle_tasks primary_key t w tasks).1 = []
            ∧ (handle_tasks primary_key t w tasks).2.1 = tasks
            ∧ (handle_tasks primary_key t w tasks).2.2 = w) := by
  refine ⟨passEntries_polls primary_key w.entities t tasks, ?_, ?_, ?_⟩
  · unfold handle_tasks
    exact passEntries_kept_filter primary_key w.entities t tasks
  · intro e he
    exact processEntry_pending primary_key w.entities t e he
  · intro hall
    unfold handle_tasks
    rw [passEntries_pending primary_key w.entities t tasks hall]
    exact ⟨rfl, rfl, rfl⟩

/-- Witness for C7 at a concrete input: two pending entries at tick 3. -/
theorem handle_tasks_poll_retain_remove_witness :
    (passEntries (fun c : Nat => c) ([] : List (Nat × Nat)) 3
        [(⟨1, true, ⟨5, Except.ok [2]⟩⟩ : TaskEntry Nat Unit),
         ⟨2, false, ⟨9, Except.error ()⟩⟩]).polls = 2
      ∧ (handle_tasks (fun c : Nat => c) 3 (⟨0, []⟩ : World Nat)
          [(⟨1, true, ⟨5, Except.ok [2]⟩⟩ : TaskEntry Nat Unit),
           ⟨2, false, ⟨9, Except.error ()⟩⟩]).2.1
        = [⟨1, true, ⟨5, Except.ok [2]⟩⟩, ⟨2, false, ⟨9, Except.error ()⟩⟩]
      ∧ (handle_tasks (fun c : Nat => c) 3 (⟨0, []⟩ : World Nat)
          [(⟨1, true, ⟨5, Except.ok [2]⟩⟩ : TaskEntry Nat Unit),
           ⟨2, false, ⟨9, Except.error ()⟩⟩]).1 = []
      ∧ (handle_tasks (fun c : Nat => c) 3 (⟨0, []⟩ : World Nat)
          [(⟨1, true, ⟨5, Except.ok [2]⟩⟩ : TaskEntry Nat Unit),
           ⟨2, false, ⟨9, Except.error ()⟩⟩]).2.2 = ⟨0, []⟩ := by
  have h := handle_tasks_poll_retain_remove (fun c : Nat => c) 3
    (⟨0, []⟩ : World Nat)
    [(⟨1, true, ⟨5, Except.ok [2]⟩⟩ : TaskEntry Nat Unit),
     ⟨2, false, ⟨9, Except.error ()⟩⟩]
  refine ⟨h.1, ?_, (h.2.2.2 (by decide)).1, (h.2.2.2 (by decide)).2.2⟩
  rw [h.2.1]
  decide

/-- C4: a command completing with Err contributes exactly one Error
notification and no entity command; its entry is removed in the same tick,
while the world mutation and the retained set are exactly those of the same
pass run without the failing entry (partial-failure isolation). -/
theorem handle_tasks_error_isolated {K C E : Type} [DecidableEq K]
    (primary_key : C → K) (t : Nat) (w : World C) (e : TaskEntry C E)
    (err : E) (p1 p2 : List (TaskEntry C E))
    (hpoll : poll_once t e.task = some (Except.error err)) :
    (handle_tasks primary_key t w (p1 ++ e :: p2)).1
        = (passEntries (K := K) primary_key w.entities t p1).statuses
          ++ SqlxEventStatus.Error e.id err
            :: (passEntries (K := K) primary_key w.entities t p2).statuses
      ∧ (handle_tasks primary_key t w (p1 ++ e :: p2)).2.2
          = (handle_tasks primary_key t w (p1 ++ p2)).2.2
      ∧ (handle_tasks primary_key t w (p1 ++ e :: p2)).2.1
          = (handle_tasks primary_key t w (p1 ++ p2)).2.1 := by
  have hproc : processEntry (K := K) primary_key w.entities t e
      = ([SqlxEventStatus.Error e.id err], [], false) := by
    simp [processEntry, hpoll]
  unfold handle_tasks
  rw [passEntries_append, passEntries_append]
  simp [passEntries, hproc]

/-- Witness for C4 at a concrete input: a failing entry between a pending
entry and a completed synchronizing entry. -/
theorem handle_tasks_error_isolated_witness :
    (handle_tasks (fun p : Nat × Nat => p.1) 0 (⟨0, []⟩ : World (Nat × Nat))
        ([(⟨1, true, ⟨4, Except.ok []⟩⟩ : TaskEntry (Nat × Nat) Unit)]
          ++ (⟨2, true, ⟨0, Except.error ()⟩⟩ : TaskEntry (Nat × Nat) Unit)
            :: [⟨3, true, ⟨0, Except.ok [(5, 8)]⟩⟩])).1
      = (passEntries (fun p : Nat × Nat => p.1) ([] : List (Nat × (Nat × Nat)))
          0 [(⟨1, true, ⟨4, Except.ok []⟩⟩ : TaskEntry (Nat × Nat) Unit)]).statuses
        ++ SqlxEventStatus.Error 2 ()
          :: (passEntries (fun p : Nat × Nat => p.1)
              ([] : List (Nat × (Nat × Nat))) 0
              [(⟨3, true, ⟨0, Except.ok [(5, 8)]⟩⟩ :
                  TaskEntry (Nat × Nat) Unit)]).statuses
      ∧ (handle_tasks (fun p : Nat × Nat => p.1) 0
          (⟨0, []⟩ : World (Nat × Nat))
          ([(⟨1, true, ⟨4, Except.ok []⟩⟩ : TaskEntry (Nat × Nat) Unit)]
            ++ (⟨2, true, ⟨0, Except.error ()⟩⟩ : TaskEntry (Nat × Nat) Unit)
              :: [⟨3, true, ⟨0, Except.ok [(5, 8)]⟩⟩])).2.2
        = (handle_tasks (fun p : Nat × Nat => p.1) 0
            (⟨0, []⟩ : World (Nat × Nat))
            ([(⟨1, true, ⟨4, Except.ok []⟩⟩ : TaskEntry (Nat × Nat) Unit)]
              ++ [⟨3, true, ⟨0, Except.ok [(5, 8)]⟩⟩])).2.2 := by
  have h := handle_tasks_error_isolated (fun p : Nat × Nat => p.1) 0
    (⟨0, []⟩ : World (Nat × Nat)) ⟨2, true, ⟨0, Except.error ()⟩⟩ ()
    [(⟨1, true, ⟨4, Except.ok []⟩⟩ : TaskEntry (Nat × Nat) Unit)]
    [⟨3, true, ⟨0, Except.ok [(5, 8)]⟩⟩] (by decide)
  exact ⟨h.1, h.2.1⟩

/-- C3: a synchronizing command completing with Ok processes each record
independently in result-vector order: the record whose key matches a
materialized entity (first match of the frozen query) yields Update and an
insert over that entity, otherwise Spawn and a fresh entity holding the
record; the found entity really holds an equal primary key, and a missed
lookup means no materialized entity has that key. -/
theorem handle_tasks_sync_ok_per_record {K C E : Type} [DecidableEq K]
    (primary_key : C → K) (t : Nat) (w : World C) (e : TaskEntry C E)
    (recs : List C) (hsync : e.sync = true)
    (hpoll : poll_once t e.task = some (Except.ok recs)) :
    (handle_tasks primary_key t w [e]).1
        = recs.map (fun r =>
            match findExisting primary_key w.entities r with
            | some _ => SqlxEventStatus.Update e.id (primary_key r)
            | none => SqlxEventStatus.Spawn e.id (primary_key r))
      ∧ (handle_tasks primary_key t w [e]).2.2
          = (recs.map (cmdOfRec primary_key w.entities)).foldl applyCmd w
      ∧ (handle_tasks primary_key t w [e]).2.1 = []
      ∧ (∀ (r : C) (ent : Nat),
            findExisting primary_key w.entities r = some ent →
              ∃ c, (ent, c) ∈ w.entities ∧ primary_key c = primary_key r)
      ∧ (∀ r : C, findExisting primary_key w.entities r = none →
            ∀ p ∈ w.entities, primary_key p.2 ≠ primary_key r)
      ∧ (∀ (v : World C) (ent : Nat) (r : C),
            applyCmd v (EntityCmd.insert ent r)
              = ⟨v.nextId,
                 v.entities.map (fun p => if p.1 = ent then (ent, r) else p)⟩)
      ∧ (∀ (v : World C) (r : C),
            applyCmd v (EntityCmd.spawn r)
              = ⟨v.nextId + 1, v.entities ++ [(v.nextId, r)]⟩) := by
  have hproc : processEntry (K := K) primary_key w.entities t e
      = ((recs.map (reconcileRecord (E := E) primary_key w.entities e.id)).map
           Prod.fst,
         (recs.map (reconcileRecord (E := E) primary_key w.entities e.id)).map
           Prod.snd, false) := by
    simp [processEntry, hpoll, hsync]
  refine ⟨?_, ?_, ?_, ?_, ?_, ?_, ?_⟩
  · show (passEntries primary_key w.entities t [e]).statuses = _
    simp only [passEntries, hproc, List.append_nil, List.map_map]
    exact List.map_congr_left fun r _ =>
      reconcileRecord_fst primary_key w.entities e.id r
  · show (passEntries (K := K) primary_key w.entities t [e]).cmds.foldl
        applyCmd w = _
    simp only [passEntries, hproc, List.append_nil, List.map_map]
    have : (recs.map (fun r =>
          (reconcileRecord (E := E) primary_key w.entities e.id r).2))
        = recs.map (cmdOfRec primary_key w.entities) :=
      List.map_congr_left fun r _ =>
        reconcileRecord_snd primary_key w.entities e.id r
    rw [show (Prod.snd ∘ reconcileRecord (E := E) primary_key w.entities e.id)
          = fun r => (reconcileRecord (E := E) primary_key w.entities e.id r).2
        from rfl, this]
  · show (passEntries (K := K) primary_key w.entities t [e]).kept = []
    simp [passEntries, hproc]
  · intro r ent h
    exact findExisting_some primary_key w.entities r ent h
  · intro r h
    exact findExisting_none primary_key w.entities r h
  · intro v ent r
    rfl
  · intro v r
    rfl

/-- Witness for C3 at a concrete input: one record updating a matching
entity, one record spawning a fresh entity. -/
theorem handle_tasks_sync_ok_per_record_witness :
    (handle_tasks (fun p : Nat × Nat => p.1) 0
        (⟨2, [(0, (1, 10)), (1, (2, 20))]⟩ : World (Nat × Nat))
        [(⟨9, true, ⟨0, Except.ok [(2, 99), (3, 30)]⟩⟩ :
            TaskEntry (Nat × Nat) Unit)]).1
      = [SqlxEventStatus.Update 9 2, SqlxEventStatus.Spawn 9 3]
      ∧ (handle_tasks (fun p : Nat × Nat => p.1) 0
          (⟨2, [(0, (1, 10)), (1, (2, 20))]⟩ : World (Nat × Nat))
          [(⟨9, true, ⟨0, Except.ok [(2, 99), (3, 30)]⟩⟩ :
              TaskEntry (Nat × Nat) Unit)]).2.2
        = ⟨3, [(0, (1, 10)), (1, (2, 99)), (2, (3, 30))]⟩ := by
  have h := handle_tasks_sync_ok_per_record (fun p : Nat × Nat => p.1) 0
    (⟨2, [(0, (1, 10)), (1, (2, 20))]⟩ : World (Nat × Nat))
    (⟨9, true, ⟨0, Except.ok [(2, 99), (3, 30)]⟩⟩ : TaskEntry (Nat × Nat) Unit)
    [(2, 99), (3, 30)] (by decide) (by decide)
  constructor
  · rw [h.1]; decide
  · rw [h.2.1]; decide

theorem find?_append_none {A : Type} (p : A → Bool) (l1 l2 : List A)
    (h : l1.find? p = none) : (l1 ++ l2).find? p = l2.find? p := by
  induction l1 with
  | nil => rfl
  | cons a l1 ih =>
      by_cases hpa : p a = true
      · rw [List.find?_cons_of_pos l1 hpa] at h
        cases h
      · have hpa2 : ¬ p a = true := hpa
        rw [List.find?_cons_of_neg l1 hpa2] at h
        rw [List.cons_append, List.find?_cons_of_neg (l1 ++ l2) hpa2]
        exact ih h

/-- C6: when a record under synchronization matches more than one
materialized entity, exactly the first matching entity in iteration order has
its record replaced and one Update is emitted for it; every other entity
(matching or not) is left untouched, no fresh entity is spawned, and no
error status is surfaced. -/
theorem handle_tasks_first_match_tiebreak {K C E : Type} [DecidableEq K]
    (primary_key : C → K) (t rt : Nat) (w : World C) (id : SqlxEventId)
    (r c : C) (ent : Nat) (l1 l2 : List (Nat × C))
    (hw : w.entities = l1 ++ (ent, c) :: l2)
    (hnd : (w.entities.map Prod.fst).Nodup)
    (hfirst : ∀ p ∈ l1, primary_key p.2 ≠ primary_key r)
    (hmatch : primary_key c = primary_key r)
    (hdup : ∃ p ∈ l2, primary_key p.2 = primary_key r)
    (ht : rt ≤ t) :
    (handle_tasks primary_key t w
        [(⟨id, true, ⟨rt, Except.ok [r]⟩⟩ : TaskEntry C E)]).1
        = [SqlxEventStatus.Update id (primary_key r)]
      ∧ (handle_tasks primary_key t w
          [(⟨id, true, ⟨rt, Except.ok [r]⟩⟩ : TaskEntry C E)]).2.2.entities
          = l1 ++ (ent, r) :: l2
      ∧ (handle_tasks primary_key t w
          [(⟨id, true, ⟨rt, Except.ok [r]⟩⟩ : TaskEntry C E)]).2.2.nextId
          = w.nextId := by
  have hl1 : l1.find? (fun p => decide (primary_key p.2 = primary_key r))
      = none := by
    apply List.find?_eq_none.mpr
    intro p hp
    simp [hfirst p hp]
  have hfind : findExisting primary_key w.entities r = some ent := by
    unfold findExisting
    rw [hw, find?_append_none _ l1 _ hl1,
      List.find?_cons_of_pos _ (by simp [hmatch])]
    rfl
  have hpoll : poll_once t (⟨rt, Except.ok [r]⟩ : SqlxTask C E)
      = some (Except.ok [r]) := by
    simp [poll_once, ht]
  have hproc : processEntry (K := K) primary_key w.entities t
      (⟨id, true, ⟨rt, Except.ok [r]⟩⟩ : TaskEntry C E)
      = ([SqlxEventStatus.Update id (primary_key r)],
         [EntityCmd.insert ent r], false) := by
    simp [processEntry, hpoll, reconcileRecord, hfind]
  rw [hw] at hnd
  have hnd2 : (ent :: (l1.map Prod.fst ++ l2.map Prod.fst)).Nodup := by
    apply List.nodup_middle.mp
    simpa using hnd
  have hent : ent ∉ l1.map Prod.fst ++ l2.map Prod.fst :=
    (List.nodup_cons.mp hnd2).1
  have hent1 : ∀ p ∈ l1, ¬ p.1 = ent := by
    intro p hp hpe
    exact hent (List.mem_append_left _ (hpe ▸ List.mem_map_of_mem Prod.fst hp))
  have hent2 : ∀ p ∈ l2, ¬ p.1 = ent := by
    intro p hp hpe
    exact hent
      (List.mem_append_right _ (hpe ▸ List.mem_map_of_mem Prod.fst hp))
  have hmap : (l1 ++ (ent, c) :: l2).map
        (fun p => if p.1 = ent then (ent, r) else p)
      = l1 ++ (ent, r) :: l2 := by
    rw [List.map_append, List.map_cons]
    have e1 : l1.map (fun p => if p.1 = ent then (ent, r) else p) = l1 := by
      rw [List.map_congr_left (g := fun p => p) (fun p hp => by
        simp [hent1 p hp])]
      exact List.map_id l1
    have e2 : l2.map (fun p => if p.1 = ent then (ent, r) else p) = l2 := by
      rw [List.map_congr_left (g := fun p => p) (fun p hp => by
        simp [hent2 p hp])]
      exact List.map_id l2
    simp [e1, e2]
  refine ⟨?_, ?_, ?_⟩
  · show (passEntries primary_key w.entities t _).statuses = _
    simp [passEntries, hproc]
  · show ((passEntries (K := K) primary_key w.entities t _).cmds.foldl
        applyCmd w).entities = _
    simp only [passEntries, hproc, List.append_nil, List.foldl_cons,
      List.foldl_nil]
    show (applyCmd w (EntityCmd.insert ent r)).entities = _
    simp only [applyCmd]
    rw [hw, hmap]
  · show ((passEntries (K := K) primary_key w.entities t _).cmds.foldl
        applyCmd w).nextId = _
    simp only [passEntries, hproc, List.append_nil, List.foldl_cons,
      List.foldl_nil]
    rfl

/-- Witness for C6 at a concrete input: two entities share key 5; only the
first is updated. -/
theorem handle_tasks_first_match_tiebreak_witness :
    (handle_tasks (fun p : Nat × Nat => p.1) 1
        (⟨2, [(0, (5, 1)), (1, (5, 2))]⟩ : World (Nat × Nat))
        [(⟨4, true, ⟨0, Except.ok [(5, 9)]⟩⟩ :
            TaskEntry (Nat × Nat) Unit)]).1
      = [SqlxEventStatus.Update 4 5]
      ∧ (handle_tasks (fun p : Nat × Nat => p.1) 1
          (⟨2, [(0, (5, 1)), (1, (5, 2))]⟩ : World (Nat × Nat))
          [(⟨4, true, ⟨0, Except.ok [(5, 9)]⟩⟩ :
              TaskEntry (Nat × Nat) Unit)]).2.2.entities
        = [] ++ ((0, (5, 9)) : Nat × (Nat × Nat)) :: [(1, (5, 2))]
      ∧ (handle_tasks (fun p : Nat × Nat => p.1) 1
          (⟨2, [(0, (5, 1)), (1, (5, 2))]⟩ : World (Nat × Nat))
          [(⟨4, true, ⟨0, Except.ok [(5, 9)]⟩⟩ :
              TaskEntry (Nat × Nat) Unit)]).2.2.nextId
        = (⟨2, [(0, (5, 1)), (1, (5, 2))]⟩ : World (Nat × Nat)).nextId :=
  handle_tasks_first_match_tiebreak (fun p : Nat × Nat => p.1) 1 0
    (⟨2, [(0, (5, 1)), (1, (5, 2))]⟩ : World (Nat × Nat)) 4
    (5, 9) (5, 1) 0 [] [(1, (5, 2))] (by decide) (by decide)
    (by decide) (by decide) (by decide) (by decide)

theorem eventIdGen_closed (k : Nat) : eventIdGen k = (1 + k) % 2 ^ 32 := by
  induction k with
  | zero =>
      show EVENT_ID_GENERATOR_INIT = (1 + 0) % 2 ^ 32
      norm_num [EVENT_ID_GENERATOR_INIT]
  | succ k ih =>
      show (eventIdGen k + 1) % 2 ^ 32 = (1 + (k + 1)) % 2 ^ 32
      rw [ih, Nat.mod_add_mod]
      have : 1 + k + 1 = 1 + (k + 1) := by omega
      rw [this]

theorem mod_succ_of_ne_top (M a : Nat) (hM : 0 < M) (h : a % M ≠ M - 1) :
    (a + 1) % M = a % M + 1 := by
  have hr : a % M < M := Nat.mod_lt a hM
  have hlt : a % M + 1 < M := by omega
  calc (a + 1) % M = (a % M + 1) % M := (Nat.mod_add_mod a M 1).symm
  _ = a % M + 1 := Nat.mod_eq_of_lt hlt

/-- C9: the process-wide id counter starts at 1; each of the four
construction forms draws its id from a single fetch-and-increment of the
shared generator; successive ids follow the closed form (1 + k) mod 2 ^ 32,
grow strictly until the u32 counter wraps, and two constructions within one
wraparound window never share an id. -/
theorem next_event_id_spec :
    eventIdAt 0 = 1
      ∧ (∀ k, eventIdAt k = (1 + k) % 2 ^ 32)
      ∧ (∀ (C E : Type) (sync : Bool) (f : SqlxFuture C E) (g : Nat),
          (call_private sync f g).1.id = (next_event_id g).1
            ∧ (call_private sync f g).2 = (next_event_id g).2
            ∧ query f g = call_private false f g
            ∧ query_sync f g = call_private true f g
            ∧ call f g = call_private false f g
            ∧ call_sync f g = call_private true f g)
      ∧ (∀ k, eventIdAt k ≠ 2 ^ 32 - 1 → eventIdAt (k + 1) = eventIdAt k + 1)
      ∧ (∀ j k, j < k → k - j < 2 ^ 32 → eventIdAt j ≠ eventIdAt k) := by
  have hclosed : ∀ k, eventIdAt k = (1 + k) % 2 ^ 32 := by
    intro k
    show eventIdGen k = (1 + k) % 2 ^ 32
    exact eventIdGen_closed k
  refine ⟨by rw [hclosed 0]; norm_num, hclosed, ?_, ?_, ?_⟩
  · intro C E sync f g
    exact ⟨rfl, rfl, rfl, rfl, rfl, rfl⟩
  · intro k hk
    rw [hclosed k] at hk
    rw [hclosed k, hclosed (k + 1)]
    have : 1 + (k + 1) = (1 + k) + 1 := by omega
    rw [this]
    exact mod_succ_of_ne_top (2 ^ 32) (1 + k) (by norm_num) hk
  · intro j k hjk hwin heq
    rw [hclosed j, hclosed k] at heq
    have hle : 1 + j ≤ 1 + k := by omega
    have hdvd : 2 ^ 32 ∣ (1 + k) - (1 + j) :=
      (Nat.modEq_iff_dvd' hle).mp heq
    have hsub : (1 + k) - (1 + j) = k - j := by omega
    rw [hsub] at hdvd
    have hpos : 0 < k - j := by omega
    have := Nat.le_of_dvd hpos hdvd
    omega

/-- Witness for C9 at concrete inputs: the first ids and a concrete
non-collision inside the wraparound window. -/
theorem next_event_id_spec_witness :
    eventIdAt 0 = 1
      ∧ eventIdAt 5 = (1 + 5) % 2 ^ 32
      ∧ ((call_private true (⟨0, Except.ok [7]⟩ : SqlxFuture Nat Unit) 1).1.id
            = (next_event_id 1).1
          ∧ (call_private true (⟨0, Except.ok [7]⟩ : SqlxFuture Nat Unit) 1).2
            = (next_event_id 1).2)
      ∧ eventIdAt 6 = eventIdAt 5 + 1
      ∧ eventIdAt 3 ≠ eventIdAt 7 := by
  have h := next_event_id_spec
  refine ⟨h.1, h.2.1 5, ?_, ?_, ?_⟩
  · have h3 := h.2.2.1 Nat Unit true (⟨0, Except.ok [7]⟩ : SqlxFuture Nat Unit) 1
    exact ⟨h3.1, h3.2.1⟩
  · exact h.2.2.2.1 5 (by decide)
  · exact h.2.2.2.2 3 7 (by decide) (by decide)

theorem mem_fst_nodup_eq {C : Type} : ∀ (l : List (Nat × C)),
    (l.map Prod.fst).Nodup → ∀ (a : Nat) (b b' : C),
    (a, b) ∈ l → (a, b') ∈ l → b = b'
  | [], _, a, b, b', h1, _ => absurd h1 (List.not_mem_nil _)
  | p :: rest, hnd, a, b, b', h1, h2 => by
      rw [List.map_cons, List.nodup_cons] at hnd
      rcases List.mem_cons.mp h1 with e1 | m1
      · rcases List.mem_cons.mp h2 with e2 | m2
        · rw [← e1] at e2
          exact ((Prod.ext_iff.mp e2).2).symm
        · exfalso
          apply hnd.1
          have ha : p.1 = a := by rw [← e1]
          rw [ha]
          exact List.mem_map.mpr ⟨(a, b'), m2, rfl⟩
      · rcases List.mem_cons.mp h2 with e2 | m2
        · exfalso
          apply hnd.1
          have ha : p.1 = a := by rw [← e2]
          rw [ha]
          exact List.mem_map.mpr ⟨(a, b), m1, rfl⟩
        · exact mem_fst_nodup_eq rest hnd.2 a b b' m1 m2

theorem countP_congr_mem {A : Type} (p q : A → Bool) :
    ∀ (l : List A), (∀ a ∈ l, p a = q a) → l.countP p = l.countP q
  | [], _ => rfl
  | a :: l, h => by
      rw [List.countP_cons, List.countP_cons, h a (List.mem_cons_self a l),
        countP_congr_mem p q l (fun x hx => h x (List.mem_cons_of_mem a hx))]

theorem insert_fst_eq {C : Type} (ent : Nat) (r : C) (l : List (Nat × C)) :
    (l.map (fun p => if p.1 = ent then (ent, r) else p)).map Prod.fst
      = l.map Prod.fst := by
  rw [List.map_map]
  apply List.map_congr_left
  intro p _
  by_cases h : p.1 = ent <;> simp [h]

theorem wf_insert {C : Type} (w : World C) (ent : Nat) (r : C) (h : WF w) :
    WF (applyCmd w (EntityCmd.insert ent r)) := by
  constructor
  · intro p hp
    rcases List.mem_map.mp hp with ⟨x, hx, he⟩
    have hfst : p.1 = x.1 := by
      rw [← he]
      by_cases hc : x.1 = ent <;> simp [hc]
    rw [hfst]
    exact h.1 x hx
  · show ((w.entities.map fun p => if p.1 = ent then (ent, r) else p).map
        Prod.fst).Nodup
    rw [insert_fst_eq]
    exact h.2

theorem wf_spawn {C : Type} (w : World C) (r : C) (h : WF w) :
    WF (applyCmd w (EntityCmd.spawn r)) := by
  constructor
  · intro p hp
    rcases List.mem_append.mp hp with hx | hx
    · exact Nat.lt_trans (h.1 p hx) (Nat.lt_succ_self _)
    · rcases List.mem_singleton.mp hx with he
      rw [he]
      exact Nat.lt_succ_self _
  · show ((w.entities ++ [(w.nextId, r)]).map Prod.fst).Nodup
    rw [List.map_append]
    rw [List.nodup_append]
    refine ⟨h.2, List.nodup_singleton _, ?_⟩
    intro a ha hb
    rcases List.mem_map.mp ha with ⟨x, hx, he⟩
    have hlt := h.1 x hx
    have : a = w.nextId := by simpa using hb
    omega

theorem countKey_insert {K C : Type} [DecidableEq K] (primary_key : C → K)
    (w : World C) (ent : Nat) (c r : C)
    (hnd : (w.entities.map Prod.fst).Nodup)
    (hm : (ent, c) ∈ w.entities) (hk : primary_key c = primary_key r)
    (k : K) :
    countKey primary_key k (applyCmd w (EntityCmd.insert ent r)).entities
      = countKey primary_key k w.entities := by
  show (w.entities.map fun p => if p.1 = ent then (ent, r) else p).countP _
      = w.entities.countP _
  rw [List.countP_map]
  apply countP_congr_mem
  intro x hx
  by_cases hc : x.1 = ent
  · have hxe : (ent, x.2) ∈ w.entities := by
      rw [← hc]
      exact hx
    have hx2 : x.2 = c := mem_fst_nodup_eq w.entities hnd ent x.2 c hxe hm
    simp [Function.comp, hc, hx2, hk]
  · simp [Function.comp, hc]

theorem countKey_spawn {K C : Type} [DecidableEq K] (primary_key : C → K)
    (w : World C) (r : C) (k : K) :
    countKey primary_key k (applyCmd w (EntityCmd.spawn r)).entities
      = countKey primary_key k w.entities
        + (if primary_key r = k then 1 else 0) := by
  show (w.entities ++ [(w.nextId, r)]).countP _ = _
  rw [List.countP_append]
  simp [countKey, List.countP_cons]

theorem insert_preserves_lookup {K C : Type} [DecidableEq K]
    (primary_key : C → K) (w : World C)
    (hnd : (w.entities.map Prod.fst).Nodup) (ent : Nat) (c r0 : C)
    (hc : (ent, c) ∈ w.entities) (hk : primary_key c = primary_key r0)
    (ent2 : Nat) (c2 : C) (h2 : (ent2, c2) ∈ w.entities) :
    ∃ c3, (ent2, c3) ∈ (applyCmd w (EntityCmd.insert ent r0)).entities
      ∧ primary_key c3 = primary_key c2 := by
  by_cases he : ent2 = ent
  · subst he
    have hc2 : c2 = c := mem_fst_nodup_eq w.entities hnd ent2 c2 c h2 hc
    refine ⟨r0, ?_, by rw [hc2, ← hk]⟩
    exact List.mem_map.mpr ⟨(ent2, c2), h2, by simp⟩
  · refine ⟨c2, ?_, rfl⟩
    exact List.mem_map.mpr ⟨(ent2, c2), h2, by simp [he]⟩

theorem insert_preserves_other {C : Type} (w : World C) (ent : Nat) (r0 : C)
    (ent2 : Nat) (c2 : C) (h2 : (ent2, c2) ∈ w.entities) (hne : ent2 ≠ ent) :
    (ent2, c2) ∈ (applyCmd w (EntityCmd.insert ent r0)).entities :=
  List.mem_map.mpr ⟨(ent2, c2), h2, by simp [hne]⟩

theorem countP_key_nodup {K C : Type} [DecidableEq K] (primary_key : C → K)
    (f : C → Bool) : ∀ (rs : List C) (r : C), r ∈ rs →
      (rs.map primary_key).Nodup →
      rs.countP (fun x => decide (primary_key x = primary_key r) && f x)
        = if f r then 1 else 0
  | [], r, hr, _ => absurd hr (List.not_mem_nil r)
  | a :: rs, r, hr, hnd => by
      rw [List.map_cons, List.nodup_cons] at hnd
      rw [List.countP_cons]
      by_cases hk : primary_key a = primary_key r
      · have ha : a = r := by
          rcases List.mem_cons.mp hr with e | m
          · exact e.symm
          · exfalso
            apply hnd.1
            rw [hk]
            exact List.mem_map.mpr ⟨r, m, rfl⟩
        have hz : rs.countP
            (fun x => decide (primary_key x = primary_key r) && f x) = 0 := by
          apply List.countP_eq_zero.mpr
          intro x hx hpx
          apply hnd.1
          have hxk : primary_key x = primary_key r := by
            have := (Bool.and_eq_true _ _).mp hpx
            exact of_decide_eq_true this.1
          rw [hk, ← hxk]
          exact List.mem_map.mpr ⟨x, hx, rfl⟩
        rw [hz, ha]
        simp
      · have hra : r ∈ rs := by
          rcases List.mem_cons.mp hr with e | m
          · exact absurd (e ▸ rfl) hk
          · exact m
        rw [countP_key_nodup primary_key f rs r hra hnd.2]
        simp [hk]

theorem fold_wf {K C : Type} [DecidableEq K] (primary_key : C → K)
    (q : List (Nat × C)) : ∀ (rs : List C) (w : World C), WF w →
      WF ((rs.map (cmdOfRec primary_key q)).foldl applyCmd w)
  | [], _, h => h
  | r :: rs, w, h => by
      rw [List.map_cons, List.foldl_cons]
      apply fold_wf primary_key q rs
      show WF (applyCmd w (cmdOfRec primary_key q r))
      unfold cmdOfRec
      cases hf : findExisting primary_key q r
      · exact wf_spawn w r h
      · exact wf_insert w _ r h

theorem fold_count {K C : Type} [DecidableEq K] (primary_key : C → K)
    (q : List (Nat × C)) : ∀ (rs : List C) (w : World C), WF w →
      (∀ r ∈ rs, ∀ ent, findExisting primary_key q r = some ent →
        ∃ c, (ent, c) ∈ w.entities ∧ primary_key c = primary_key r) →
      ∀ k, countKey primary_key k
          ((rs.map (cmdOfRec primary_key q)).foldl applyCmd w).entities
        = countKey primary_key k w.entities
          + rs.countP (fun r => decide (primary_key r = k)
              && (findExisting primary_key q r).isNone)
  | [], w, _, _, k => by simp
  | r :: rs, w, hwf, hins, k => by
      rw [List.map_cons, List.foldl_cons, List.countP_cons]
      cases hf : findExisting primary_key q r with
      | some ent =>
          rcases hins r (List.mem_cons_self r rs) ent hf with ⟨c, hc, hkc⟩
          have hcmd : cmdOfRec primary_key q r = EntityCmd.insert ent r := by
            unfold cmdOfRec
            rw [hf]
          rw [hcmd]
          have hw1 := wf_insert w ent r hwf
          have hins1 : ∀ r2 ∈ rs, ∀ ent2,
              findExisting primary_key q r2 = some ent2 →
              ∃ c2, (ent2, c2) ∈ (applyCmd w
                  (EntityCmd.insert ent r)).entities
                ∧ primary_key c2 = primary_key r2 := by
            intro r2 hr2 ent2 hf2
            rcases hins r2 (List.mem_cons_of_mem r hr2) ent2 hf2
              with ⟨c2, hc2, hkc2⟩
            rcases insert_preserves_lookup primary_key w hwf.2 ent c r hc hkc
              ent2 c2 hc2 with ⟨c3, hc3, hkc3⟩
            exact ⟨c3, hc3, by rw [hkc3, hkc2]⟩
          rw [fold_count primary_key q rs (applyCmd w (EntityCmd.insert ent r))
            hw1 hins1 k]
          rw [countKey_insert primary_key w ent c r hwf.2 hc hkc k]
          simp [hf]
      | none =>
          have hcmd : cmdOfRec primary_key q r = EntityCmd.spawn r := by
            unfold cmdOfRec
            rw [hf]
          rw [hcmd]
          have hw1 := wf_spawn w r hwf
          have hins1 : ∀ r2 ∈ rs, ∀ ent2,
              findExisting primary_key q r2 = some ent2 →
              ∃ c2, (ent2, c2) ∈ (applyCmd w (EntityCmd.spawn r)).entities
                ∧ primary_key c2 = primary_key r2 := by
            intro r2 hr2 ent2 hf2
            rcases hins r2 (List.mem_cons_of_mem r hr2) ent2 hf2
              with ⟨c2, hc2, hkc2⟩
            exact ⟨c2, List.mem_append_left _ hc2, hkc2⟩
          rw [fold_count primary_key q rs (applyCmd w (EntityCmd.spawn r))
            hw1 hins1 k]
          rw [countKey_spawn primary_key w r k]
          simp only [hf, Option.isNone_none, Bool.and_true]
          by_cases hrk : primary_key r = k
          · simp [hrk]
            omega
          · simp [hrk]

theorem fold_pair_preserved {K C : Type} [DecidableEq K] (primary_key : C → K)
    (q : List (Nat × C)) : ∀ (rs : List C) (w : World C) (ent : Nat) (x : C),
      (ent, x) ∈ w.entities →
      (∀ r ∈ rs, ∀ e2, findExisting primary_key q r = some e2 → e2 ≠ ent) →
      (ent, x) ∈ ((rs.map (cmdOfRec primary_key q)).foldl applyCmd w).entities
  | [], _, _, _, hm, _ => hm
  | r :: rs, w, ent, x, hm, havoid => by
      rw [List.map_cons, List.foldl_cons]
      apply fold_pair_preserved primary_key q rs _ ent x _
        (fun r2 hr2 => havoid r2 (List.mem_cons_of_mem r hr2))
      cases hf : findExisting primary_key q r with
      | some e2 =>
          have hcmd : cmdOfRec primary_key q r = EntityCmd.insert e2 r := by
            unfold cmdOfRec
            rw [hf]
          rw [hcmd]
          exact insert_preserves_other w e2 r ent x hm
            (fun he => havoid r (List.mem_cons_self r rs) e2 hf he.symm)
      | none =>
          have hcmd : cmdOfRec primary_key q r = EntityCmd.spawn r := by
            unfold cmdOfRec
            rw [hf]
          rw [hcmd]
          exact List.mem_append_left _ hm

theorem fold_replaced {K C : Type} [DecidableEq K] (primary_key : C → K)
    (q : List (Nat × C)) (hq : (q.map Prod.fst).Nodup) :
    ∀ (rs : List C) (w : World C), WF w →
      (∀ r ∈ rs, ∀ ent, findExisting primary_key q r = some ent →
        ∃ c, (ent, c) ∈ w.entities ∧ primary_key c = primary_key r) →
      (rs.map primary_key).Nodup →
      ∀ r ∈ rs, ∀ ent, findExisting primary_key q r = some ent →
        (ent, r) ∈ ((rs.map (cmdOfRec primary_key q)).foldl
          applyCmd w).entities
  | [], _, _, _, _, r, hr, _, _ => absurd hr (List.not_mem_nil r)
  | r0 :: rs, w, hwf, hins, hnd, r, hr, ent, hf => by
      rw [List.map_cons, List.foldl_cons]
      rw [List.map_cons, List.nodup_cons] at hnd
      rcases List.mem_cons.mp hr with he | hm
      · subst he
        have hcmd : cmdOfRec primary_key q r = EntityCmd.insert ent r := by
          unfold cmdOfRec
          rw [hf]
        rw [hcmd]
        rcases hins r (List.mem_cons_self r rs) ent hf with ⟨c, hc, hkc⟩
        have hmem : (ent, r) ∈ (applyCmd w (EntityCmd.insert ent r)).entities :=
          List.mem_map.mpr ⟨(ent, c), hc, by simp⟩
        apply fold_pair_preserved primary_key q rs _ ent r hmem
        intro r2 hr2 e2 hf2 he2
        apply hnd.1
        rcases findExisting_some primary_key q r2 e2 hf2 with ⟨c2, hc2, hkc2⟩
        rcases findExisting_some primary_key q r ent hf with ⟨c0, hc0, hkc0⟩
        have hceq : c2 = c0 := by
          apply mem_fst_nodup_eq q hq ent c2 c0
          · rw [← he2]
            exact hc2
          · exact hc0
        have : primary_key r = primary_key r2 := by
          rw [← hkc0, ← hceq, hkc2]
        rw [this]
        exact List.mem_map.mpr ⟨r2, hr2, rfl⟩
      · have hins1 : ∀ r2 ∈ rs, ∀ ent2,
            findExisting primary_key q r2 = some ent2 →
            ∃ c2, (ent2, c2) ∈ (applyCmd w
                (cmdOfRec primary_key q r0)).entities
              ∧ primary_key c2 = primary_key r2 := by
          intro r2 hr2 ent2 hf2
          rcases hins r2 (List.mem_cons_of_mem r0 hr2) ent2 hf2
            with ⟨c2, hc2, hkc2⟩
          cases hf0 : findExisting primary_key q r0 with
          | some e0 =>
              have hcmd : cmdOfRec primary_key q r0 = EntityCmd.insert e0 r0 := by
                unfold cmdOfRec
                rw [hf0]
              rcases hins r0 (List.mem_cons_self r0 rs) e0 hf0
                with ⟨c0, hc0, hkc0⟩
              rcases insert_preserves_lookup primary_key w hwf.2 e0 c0 r0 hc0
                hkc0 ent2 c2 hc2 with ⟨c3, hc3, hkc3⟩
              rw [hcmd]
              exact ⟨c3, hc3, by rw [hkc3, hkc2]⟩
          | none =>
              have hcmd : cmdOfRec primary_key q r0 = EntityCmd.spawn r0 := by
                unfold cmdOfRec
                rw [hf0]
              rw [hcmd]
              exact ⟨c2, List.mem_append_left _ hc2, hkc2⟩
        have hw1 : WF (applyCmd w (cmdOfRec primary_key q r0)) := by
          cases hf0 : findExisting primary_key q r0 with
          | some e0 =>
              have hcmd : cmdOfRec primary_key q r0
                  = EntityCmd.insert e0 r0 := by
                unfold cmdOfRec
                rw [hf0]
              rw [hcmd]
              exact wf_insert w e0 r0 hwf
          | none =>
              have hcmd : cmdOfRec primary_key q r0 = EntityCmd.spawn r0 := by
                unfold cmdOfRec
                rw [hf0]
              rw [hcmd]
              exact wf_spawn w r0 hwf
        exact fold_replaced primary_key q hq rs _ hw1 hins1 hnd.2 r hm ent hf

theorem passEntries_cmds_eq {K C E : Type} [DecidableEq K]
    (primary_key : C → K) (q : List (Nat × C)) (t : Nat) :
    ∀ (l : List (TaskEntry C E)),
      (passEntries (K := K) primary_key q t l).cmds
        = (completedSyncRecords t l).map (cmdOfRec primary_key q)
  | [] => by simp [passEntries, completedSyncRecords]
  | e :: rest => by
      rw [show completedSyncRecords t (e :: rest)
          = (match poll_once t e.task with
             | some (.ok recs) => if e.sync then recs else []
             | _ => []) ++ completedSyncRecords t rest from rfl]
      rw [List.map_append]
      show (processEntry (K := K) primary_key q t e).2.1
          ++ (passEntries (K := K) primary_key q t rest).cmds = _
      rw [passEntries_cmds_eq primary_key q t rest]
      congr 1
      match hres : poll_once t e.task with
      | none => simp [processEntry, hres]
      | some (.ok recs) =>
          by_cases hs : e.sync
          · simp only [processEntry, hres, hs, if_pos, List.map_map]
            exact List.map_congr_left fun r _ =>
              reconcileRecord_snd primary_key q e.id r
          · simp [processEntry, hres, hs]
      | some (.error err) => simp [processEntry, hres]

/-- C1 counterexample: a single synchronizing command whose result vector
holds two records with equal primary key 5, reconciled against an empty
world, materializes TWO entities with key 5 — the query is frozen for the
whole pass (Bevy commands are deferred until after the retain loop), so the
second record does not see the entity spawned for the first.  The claimed
invariant (exactly one entity per distinct observed key) fails here. -/
theorem duplicate_key_records_spawn_twice :
    (handle_tasks (fun p : Nat × Nat => p.1) 0 (⟨0, []⟩ : World (Nat × Nat))
        [(⟨1, true, ⟨0, Except.ok [(5, 10), (5, 20)]⟩⟩ :
            TaskEntry (Nat × Nat) Unit)]).2.2.entities
      = [(0, (5, 10)), (1, (5, 20))]
      ∧ countKey (fun p : Nat × Nat => p.1) 5
          (handle_tasks (fun p : Nat × Nat => p.1) 0
            (⟨0, []⟩ : World (Nat × Nat))
            [(⟨1, true, ⟨0, Except.ok [(5, 10), (5, 20)]⟩⟩ :
                TaskEntry (Nat × Nat) Unit)]).2.2.entities = 2
      ∧ ¬ countKey (fun p : Nat × Nat => p.1) 5
          (handle_tasks (fun p : Nat × Nat => p.1) 0
            (⟨0, []⟩ : World (Nat × Nat))
            [(⟨1, true, ⟨0, Except.ok [(5, 10), (5, 20)]⟩⟩ :
                TaskEntry (Nat × Nat) Unit)]).2.2.entities = 1 := by
  refine ⟨?_, by decide, by decide⟩
  decide

/-- C1 (amended): lookups run against the entities materialized before the
pass, so uniqueness holds under the premises the counterexample forces: in a
well-formed world, if the records reconciled during one pass (across all
commands completing with Ok under the sync flag) have pairwise-distinct
primary keys and the pre-pass world holds at most one entity per such key,
then afterwards exactly one materialized entity exists per distinct key
observed, and a record whose key already had an entity replaces that entity
in place — no duplicate is created for it. -/
theorem handle_tasks_unique_keys_of_nodup {K C E : Type} [DecidableEq K]
    (primary_key : C → K) (t : Nat) (w : World C)
    (tasks : List (TaskEntry C E)) (hwf : WF w)
    (hkeys : ((completedSyncRecords t tasks).map primary_key).Nodup)
    (hpre : ∀ r ∈ completedSyncRecords t tasks,
        countKey primary_key (primary_key r) w.entities ≤ 1) :
    (∀ r ∈ completedSyncRecords t tasks,
        countKey primary_key (primary_key r)
          (handle_tasks primary_key t w tasks).2.2.entities = 1)
      ∧ (∀ r ∈ completedSyncRecords t tasks, ∀ ent,
          findExisting primary_key w.entities r = some ent →
            (ent, r) ∈ (handle_tasks primary_key t w tasks).2.2.entities) := by
  have hworld : (handle_tasks primary_key t w tasks).2.2
      = ((completedSyncRecords t tasks).map
          (cmdOfRec primary_key w.entities)).foldl applyCmd w := by
    show (passEntries (K := K) primary_key w.entities t tasks).cmds.foldl
        applyCmd w = _
    rw [passEntries_cmds_eq primary_key w.entities t tasks]
  have hins : ∀ r ∈ completedSyncRecords t tasks, ∀ ent,
      findExisting primary_key w.entities r = some ent →
      ∃ c, (ent, c) ∈ w.entities ∧ primary_key c = primary_key r := by
    intro r _ ent hf
    exact findExisting_some primary_key w.entities r ent hf
  constructor
  · intro r hr
    rw [hworld]
    rw [fold_count primary_key w.entities (completedSyncRecords t tasks) w
      hwf hins (primary_key r)]
    rw [countP_key_nodup primary_key
      (fun x => (findExisting primary_key w.entities x).isNone)
      (completedSyncRecords t tasks) r hr hkeys]
    cases hf : findExisting primary_key w.entities r with
    | some ent =>
        rcases findExisting_some primary_key w.entities r ent hf
          with ⟨c, hc, hkc⟩
        have hpos : 0 < countKey primary_key (primary_key r) w.entities := by
          apply List.countP_pos_iff.mpr
          exact ⟨(ent, c), hc, by simp [hkc]⟩
        have hle := hpre r hr
        simp only [Option.isNone_some, Bool.false_eq_true, if_false,
          Nat.add_zero]
        omega
    | none =>
        have hzero : countKey primary_key (primary_key r) w.entities = 0 := by
          apply List.countP_eq_zero.mpr
          intro p hp
          simp [findExisting_none primary_key w.entities r hf p hp]
        rw [hzero]
        simp [hf]
  · intro r hr ent hf
    rw [hworld]
    exact fold_replaced primary_key w.entities hwf.2
      (completedSyncRecords t tasks) w hwf hins hkeys r hr ent hf

/-- Witness for the amended C1 at a concrete input: key 5 already exists and
is replaced in place, key 7 is new and spawned once. -/
theorem handle_tasks_unique_keys_of_nodup_witness :
    countKey (fun p : Nat × Nat => p.1) 5
        (handle_tasks (fun p : Nat × Nat => p.1) 0
          (⟨1, [(0, (5, 1))]⟩ : World (Nat × Nat))
          [(⟨1, true, ⟨0, Except.ok [(5, 9), (7, 2)]⟩⟩ :
              TaskEntry (Nat × Nat) Unit)]).2.2.entities = 1
      ∧ countKey (fun p : Nat × Nat => p.1) 7
          (handle_tasks (fun p : Nat × Nat => p.1) 0
            (⟨1, [(0, (5, 1))]⟩ : World (Nat × Nat))
            [(⟨1, true, ⟨0, Except.ok [(5, 9), (7, 2)]⟩⟩ :
                TaskEntry (Nat × Nat) Unit)]).2.2.entities = 1
      ∧ ((0, (5, 9)) : Nat × (Nat × Nat))
          ∈ (handle_tasks (fun p : Nat × Nat => p.1) 0
              (⟨1, [(0, (5, 1))]⟩ : World (Nat × Nat))
              [(⟨1, true, ⟨0, Except.ok [(5, 9), (7, 2)]⟩⟩ :
                  TaskEntry (Nat × Nat) Unit)]).2.2.entities := by
  have h := handle_tasks_unique_keys_of_nodup (fun p : Nat × Nat => p.1) 0
    (⟨1, [(0, (5, 1))]⟩ : World (Nat × Nat))
    [(⟨1, true, ⟨0, Except.ok [(5, 9), (7, 2)]⟩⟩ :
        TaskEntry (Nat × Nat) Unit)]
    ⟨by decide, by decide⟩ (by decide) (by decide)
  exact ⟨h.1 (5, 9) (by decide), h.1 (7, 2) (by decide),
    h.2 (5, 9) (by decide) 0 (by decide)⟩

theorem sbt_append {K C E : Type} (i : SqlxEventId) :
    ∀ (xs ys : List (SqlxEventStatus K C E)) (seen : Bool),
      startBeforeTerminal i seen (xs ++ ys)
        = (startBeforeTerminal i seen xs
            && startBeforeTerminal i (seen || xs.any (isStartFor i)) ys)
  | [], ys, seen => by simp [startBeforeTerminal]
  | x :: xs, ys, seen => by
      rw [List.cons_append]
      show ((!(isTerminalFor i x) || seen)
          && startBeforeTerminal i (seen || isStartFor i x) (xs ++ ys)) = _
      rw [sbt_append i xs ys (seen || isStartFor i x)]
      rw [show startBeforeTerminal i seen (x :: xs)
          = ((!(isTerminalFor i x) || seen)
              && startBeforeTerminal i (seen || isStartFor i x) xs) from rfl]
      rw [List.any_cons]
      have horder : (seen || isStartFor i x || xs.any (isStartFor i))
          = (seen || (isStartFor i x || xs.any (isStartFor i))) := by
        rw [Bool.or_assoc]
      rw [← horder]
      rw [Bool.and_assoc]

theorem sbt_true {K C E : Type} (i : SqlxEventId) :
    ∀ (l : List (SqlxEventStatus K C E)),
      startBeforeTerminal i true l = true
  | [] => rfl
  | s :: l => by
      show ((!(isTerminalFor i s) || true)
          && startBeforeTerminal i (true || isStartFor i s) l) = true
      rw [Bool.or_true, Bool.true_or, Bool.true_and]
      exact sbt_true i l

theorem sbt_no_terminal {K C E : Type} (i : SqlxEventId) :
    ∀ (l : List (SqlxEventStatus K C E)) (seen : Bool),
      (∀ s ∈ l, isTerminalFor i s = false) →
      startBeforeTerminal i seen l = true
  | [], _, _ => rfl
  | s :: l, seen, h => by
      show ((!(isTerminalFor i s) || seen)
          && startBeforeTerminal i (seen || isStartFor i s) l) = true
      rw [h s (List.mem_cons_self s l)]
      rw [sbt_no_terminal i l (seen || isStartFor i s)
        (fun x hx => h x (List.mem_cons_of_mem s hx))]
      rfl

theorem isTerminalFor_id {K C E : Type} (i : SqlxEventId)
    (s : SqlxEventStatus K C E) (h : isTerminalFor i s = true) :
    SqlxEventStatus.id s = i := by
  cases s with
  | Start j => cases h
  | Return j cs => exact of_decide_eq_true h
  | Spawn j p => exact of_decide_eq_true h
  | Update j p => exact of_decide_eq_true h
  | Error j e => exact of_decide_eq_true h

theorem processEntry_status_mem {K C E : Type} [DecidableEq K]
    (primary_key : C → K) (q : List (Nat × C)) (t : Nat) (e : TaskEntry C E)
    (s : SqlxEventStatus K C E) (hs : s ∈ (processEntry primary_key q t e).1) :
    SqlxEventStatus.id s = e.id ∧ ∀ i, isStartFor i s = false := by
  match hres : poll_once t e.task with
  | none =>
      rw [processEntry_pending primary_key q t e hres] at hs
      exact absurd hs (List.not_mem_nil s)
  | some (.ok recs) =>
      by_cases hsync : e.sync
      · simp only [processEntry, hres, hsync, if_pos, List.map_map] at hs
        rcases List.mem_map.mp hs with ⟨r, _, he⟩
        rw [← he]
        cases hf : findExisting primary_key q r <;>
          simp [Function.comp, reconcileRecord, hf, SqlxEventStatus.id,
            isStartFor]
      · simp [processEntry, hres, hsync] at hs
        subst hs
        exact ⟨rfl, fun i => rfl⟩
  | some (.error err) =>
      simp only [processEntry, hres, List.mem_singleton] at hs
      rw [hs]
      exact ⟨rfl, fun i => rfl⟩

theorem passEntries_status_mem {K C E : Type} [DecidableEq K]
    (primary_key : C → K) (q : List (Nat × C)) (t : Nat) :
    ∀ (l : List (TaskEntry C E)) (s : SqlxEventStatus K C E),
      s ∈ (passEntries primary_key q t l).statuses →
      (∃ e ∈ l, SqlxEventStatus.id s = e.id)
        ∧ ∀ i, isStartFor i s = false
  | [], s, hs => by
      simp [passEntries] at hs
  | e :: rest, s, hs => by
      have hsplit : s ∈ (processEntry primary_key q t e).1
          ∨ s ∈ (passEntries (K := K) primary_key q t rest).statuses := by
        have : s ∈ (processEntry primary_key q t e).1
            ++ (passEntries (K := K) primary_key q t rest).statuses := hs
        exact List.mem_append.mp this
      rcases hsplit with h1 | h2
      · rcases processEntry_status_mem primary_key q t e s h1 with ⟨hid, hns⟩
        exact ⟨⟨e, List.mem_cons_self e rest, hid⟩, hns⟩
      · rcases passEntries_status_mem primary_key q t rest s h2
          with ⟨⟨e2, he2, hid⟩, hns⟩
        exact ⟨⟨e2, List.mem_cons_of_mem e he2, hid⟩, hns⟩

theorem passEntries_no_terminal_of_absent {K C E : Type} [DecidableEq K]
    (primary_key : C → K) (q : List (Nat × C)) (t : Nat)
    (l : List (TaskEntry C E)) (i : SqlxEventId)
    (habsent : ∀ e ∈ l, e.id ≠ i) :
    ∀ s ∈ (passEntries (K := K) primary_key q t l).statuses,
      isTerminalFor i s = false := by
  intro s hs
  rcases passEntries_status_mem primary_key q t l s hs with ⟨⟨e, he, hid⟩, _⟩
  cases hterm : isTerminalFor i s
  · rfl
  · exfalso
    apply habsent e he
    rw [← hid]
    exact isTerminalFor_id i s hterm

theorem passEntries_no_start {K C E : Type} [DecidableEq K]
    (primary_key : C → K) (q : List (Nat × C)) (t : Nat)
    (l : List (TaskEntry C E)) (i : SqlxEventId) :
    (passEntries (K := K) primary_key q t l).statuses.countP (isStartFor i)
      = 0 := by
  apply List.countP_eq_zero.mpr
  intro s hs
  rcases passEntries_status_mem primary_key q t l s hs with ⟨_, hns⟩
  simp [hns i]

theorem start_count_map {K C E : Type} (i : SqlxEventId)
    (evs : List (SqlxEvent C E)) :
    (evs.map (fun e => SqlxEventStatus.Start (K := K) (C := C) (E := E) e.id)
        ).countP (isStartFor i)
      = evs.countP (fun e => decide (e.id = i)) := by
  rw [List.countP_map]
  apply countP_congr_mem
  intro e _
  rfl

theorem tick_eq {K C E : Type} [DecidableEq K] (primary_key : C → K) (t : Nat)
    (subs : List (SqlxEvent C E)) (s : World C × List (TaskEntry C E)) :
    tick primary_key t subs s
      = (subs.map (fun e => SqlxEventStatus.Start e.id)
           ++ (passEntries (K := K) primary_key s.1.entities t
                (s.2 ++ subs.map (spawnEntry t))).statuses,
         (((passEntries (K := K) primary_key s.1.entities t
              (s.2 ++ subs.map (spawnEntry t))).cmds).foldl applyCmd s.1,
          (passEntries (K := K) primary_key s.1.entities t
              (s.2 ++ subs.map (spawnEntry t))).kept)) := by
  unfold tick
  rw [handle_events_eq]
  rfl

theorem tick_sbt {K C E : Type} [DecidableEq K] (primary_key : C → K)
    (i : SqlxEventId) (t : Nat) (subs : List (SqlxEvent C E))
    (s : World C × List (TaskEntry C E)) (seen : Bool)
    (hinv : ∀ e ∈ s.2, e.id = i → seen = true) :
    startBeforeTerminal i seen (tick primary_key t subs s).1 = true
      ∧ ∀ e ∈ (tick primary_key t subs s).2.2, e.id = i →
          (seen || (tick primary_key t subs s).1.any (isStartFor i))
            = true := by
  rw [tick_eq]
  have hst1 : ∀ x ∈ subs.map (fun e =>
      SqlxEventStatus.Start (K := K) (C := C) (E := E) e.id),
      isTerminalFor i x = false := by
    intro x hx
    rcases List.mem_map.mp hx with ⟨ev, _, hev⟩
    rw [← hev]
    rfl
  constructor
  · rw [sbt_append]
    rw [sbt_no_terminal i _ seen hst1, Bool.true_and]
    cases hseen : seen with
    | true =>
        rw [Bool.true_or]
        exact sbt_true i _
    | false =>
        rw [Bool.false_or]
        cases hany : (subs.map (fun e =>
            SqlxEventStatus.Start (K := K) (C := C) (E := E) e.id)).any
              (isStartFor i) with
        | true => exact sbt_true i _
        | false =>
            have habs2 : ∀ ev ∈ subs, ev.id ≠ i := by
              intro ev hev2 heq
              have hc : (subs.map (fun e =>
                  SqlxEventStatus.Start (K := K) (C := C) (E := E) e.id)).any
                    (isStartFor i) = true := by
                apply List.any_eq_true.mpr
                refine ⟨SqlxEventStatus.Start ev.id,
                  List.mem_map.mpr ⟨ev, hev2, rfl⟩, ?_⟩
                simp [isStartFor, heq]
              rw [hc] at hany
              cases hany
            have habsent : ∀ e ∈ s.2 ++ subs.map (spawnEntry t),
                e.id ≠ i := by
              intro e he heq
              rcases List.mem_append.mp he with hm | hm
              · cases hinv e hm heq
                exact Bool.noConfusion hseen
              · rcases List.mem_map.mp hm with ⟨ev, hev2, hev⟩
                apply habs2 ev hev2
                rw [← heq, ← hev]
                rfl
            exact sbt_no_terminal i _ false
              (passEntries_no_terminal_of_absent primary_key s.1.entities t
                (s.2 ++ subs.map (spawnEntry t)) i habsent)
  · intro e he heq
    have hkept : e ∈ (s.2 ++ subs.map (spawnEntry t)).filter
        (fun x => (poll_once t x.task).isNone) := by
      rw [← passEntries_kept_filter primary_key s.1.entities t]
      exact he
    have hmem : e ∈ s.2 ++ subs.map (spawnEntry t) :=
      (List.mem_filter.mp hkept).1
    rcases List.mem_append.mp hmem with hm | hm
    · rw [hinv e hm heq]
      rfl
    · rcases List.mem_map.mp hm with ⟨ev, hev2, hev⟩
      have hany : (subs.map (fun e2 =>
          SqlxEventStatus.Start (K := K) (C := C) (E := E) e2.id)).any
            (isStartFor i) = true := by
        apply List.any_eq_true.mpr
        refine ⟨SqlxEventStatus.Start ev.id,
          List.mem_map.mpr ⟨ev, hev2, rfl⟩, ?_⟩
        have : ev.id = i := by
          rw [← heq, ← hev]
          rfl
        simp [isStartFor, this]
      rw [List.any_append, hany, Bool.true_or, Bool.or_true]

theorem runTicks_sbt {K C E : Type} [DecidableEq K] (primary_key : C → K)
    (i : SqlxEventId) :
    ∀ (subs : List (List (SqlxEvent C E))) (t : Nat)
      (s : World C × List (TaskEntry C E)) (seen : Bool),
      (∀ e ∈ s.2, e.id = i → seen = true) →
      startBeforeTerminal i seen (runTicks primary_key t subs s).1 = true
  | [], _, _, _, _ => rfl
  | evs :: rest, t, s, seen, hinv => by
      show startBeforeTerminal i seen
          ((tick primary_key t evs s).1
            ++ (runTicks primary_key (t + 1) rest
                (tick primary_key t evs s).2).1) = true
      rw [sbt_append]
      rcases tick_sbt primary_key i t evs s seen hinv with ⟨h1, h2⟩
      rw [h1, Bool.true_and]
      exact runTicks_sbt primary_key i rest (t + 1)
        (tick primary_key t evs s).2
        (seen || (tick primary_key t evs s).1.any (isStartFor i)) h2

theorem runTicks_start_count {K C E : Type} [DecidableEq K]
    (primary_key : C → K) (i : SqlxEventId) :
    ∀ (subs : List (List (SqlxEvent C E))) (t : Nat)
      (s : World C × List (TaskEntry C E)),
      (runTicks primary_key t subs s).1.countP (isStartFor i)
        = (subs.map (fun evs =>
            evs.countP (fun e => decide (e.id = i)))).sum
  | [], _, _ => rfl
  | evs :: rest, t, s => by
      show ((tick primary_key t evs s).1
          ++ (runTicks primary_key (t + 1) rest
              (tick primary_key t evs s).2).1).countP (isStartFor i) = _
      rw [List.countP_append]
      rw [runTicks_start_count primary_key i rest (t + 1)
        (tick primary_key t evs s).2]
      rw [tick_eq, List.countP_append, start_count_map i evs,
        passEntries_no_start primary_key s.1.entities t
          (s.2 ++ evs.map (spawnEntry t)) i]
      rw [List.map_cons, List.sum_cons]
      omega

theorem processEntry_statuses_length {K C E : Type} [DecidableEq K]
    (primary_key : C → K) (q : List (Nat × C)) (t : Nat) (e : TaskEntry C E)
    (res : Except E (List C)) (h : poll_once t e.task = some res) :
    (processEntry (K := K) primary_key q t e).1.length
      = terminalCountOf e.sync res := by
  cases res with
  | ok recs => by_cases hs : e.sync <;> simp [processEntry, terminalCountOf, h, hs]
  | error err => simp [processEntry, terminalCountOf, h]

/-- C2 counterexample: a synchronizing command whose future completes with
Ok of an EMPTY record vector yields no terminal notification at all: after
one tick the trace is only its Start, the outstanding set is empty (the task
completed and was removed), yet no Return, Spawn, Update or Error bearing its
id was ever emitted — refuting the claim that every completed command
produces at least one terminal notification, and in particular that a
successful synchronizing command always yields a Spawn or Update. -/
theorem sync_empty_result_no_terminal :
    (runTicks (fun c : Nat => c) 0
        [([⟨⟨0, Except.ok []⟩, 1, true⟩] : List (SqlxEvent Nat Unit))]
        ((⟨0, []⟩ : World Nat), ([] : List (TaskEntry Nat Unit)))).1
      = [SqlxEventStatus.Start 1]
      ∧ (runTicks (fun c : Nat => c) 0
          [([⟨⟨0, Except.ok []⟩, 1, true⟩] : List (SqlxEvent Nat Unit))]
          ((⟨0, []⟩ : World Nat), ([] : List (TaskEntry Nat Unit)))).2.2 = []
      ∧ (runTicks (fun c : Nat => c) 0
          [([⟨⟨0, Except.ok []⟩, 1, true⟩] : List (SqlxEvent Nat Unit))]
          ((⟨0, []⟩ : World Nat), ([] : List (TaskEntry Nat Unit)))).1.any
            (isTerminalFor 1) = false := by
  exact ⟨by decide, by decide, by decide⟩

/-- C2 (amended): every submitted command receives exactly one Start,
emitted in the tick its submission is processed (the trace counts one Start
per submission bearing that id), and Start strictly precedes every terminal
notification bearing the same id in the whole trace; a command observed
completed emits exactly one Return when not synchronizing, exactly one Error
on failure, and one Spawn or Update per returned record when synchronizing —
hence at least one terminal unless a synchronizing command succeeds with an
empty record vector. -/
theorem start_unique_and_precedes_terminals {K C E : Type} [DecidableEq K]
    (primary_key : C → K) :
    (∀ (i : SqlxEventId) (subs : List (List (SqlxEvent C E))) (t : Nat)
        (s : World C × List (TaskEntry C E)),
        (runTicks primary_key t subs s).1.countP (isStartFor i)
          = (subs.map (fun evs =>
              evs.countP (fun e => decide (e.id = i)))).sum)
      ∧ (∀ (i : SqlxEventId) (subs : List (List (SqlxEvent C E))) (t : Nat)
            (w0 : World C),
          startBeforeTerminal i false
            (runTicks primary_key t subs (w0, [])).1 = true)
      ∧ (∀ (q : List (Nat × C)) (t : Nat) (e : TaskEntry C E)
            (res : Except E (List C)), poll_once t e.task = some res →
          (processEntry (K := K) primary_key q t e).1.length
            = terminalCountOf e.sync res) := by
  refine ⟨?_, ?_, ?_⟩
  · intro i subs t s
    exact runTicks_start_count primary_key i subs t s
  · intro i subs t w0
    apply runTicks_sbt primary_key i subs t (w0, []) false
    intro e he
    exact absurd he (List.not_mem_nil e)
  · intro q t e res h
    exact processEntry_statuses_length primary_key q t e res h

/-- Witness for the amended C2 at a concrete input: one non-synchronizing
command submitted at tick 0, completing immediately. -/
theorem start_unique_and_precedes_terminals_witness :
    (runTicks (fun c : Nat => c) 0
        [([⟨⟨0, Except.ok [4]⟩, 1, false⟩] : List (SqlxEvent Nat Unit))]
        ((⟨0, []⟩ : World Nat), ([] : List (TaskEntry Nat Unit)))).1.countP
          (isStartFor 1)
      = ([([⟨⟨0, Except.ok [4]⟩, 1, false⟩] :
            List (SqlxEvent Nat Unit))].map (fun evs =>
          evs.countP (fun e => decide (e.id = 1)))).sum
      ∧ startBeforeTerminal 1 false
          (runTicks (fun c : Nat => c) 0
            [([⟨⟨0, Except.ok [4]⟩, 1, false⟩] : List (SqlxEvent Nat Unit))]
            ((⟨0, []⟩ : World Nat), ([] : List (TaskEntry Nat Unit)))).1
        = true
      ∧ (processEntry (fun c : Nat => c) ([] : List (Nat × Nat)) 0
          (⟨1, false, ⟨0, Except.ok [4]⟩⟩ : TaskEntry Nat Unit)).1.length
        = terminalCountOf
            (⟨1, false, ⟨0, Except.ok [4]⟩⟩ : TaskEntry Nat Unit).sync
            (Except.ok [4] : Except Unit (List Nat)) := by
  have h := start_unique_and_precedes_terminals (E := Unit) (fun c : Nat => c)
  refine ⟨h.1 1 [([⟨⟨0, Except.ok [4]⟩, 1, false⟩] :
      List (SqlxEvent Nat Unit))] 0
    ((⟨0, []⟩ : World Nat), ([] : List (TaskEntry Nat Unit))), ?_, ?_⟩
  · exact h.2.1 1 [([⟨⟨0, Except.ok [4]⟩, 1, false⟩] :
      List (SqlxEvent Nat Unit))] 0 (⟨0, []⟩ : World Nat)
  · exact h.2.2 ([] : List (Nat × Nat)) 0
      (⟨1, false, ⟨0, Except.ok [4]⟩⟩ : TaskEntry Nat Unit)
      (Except.ok [4]) (by decide)

end BevySqlx
